import Mathlib

/-!
Shallow embedding of `webgo` (src/web.go), a minimal HTTP routing layer.

Conventions of the embedding:
* Go strings and `[]byte` values are Lean `String`s; `http.Header`
  (`map[string][]string`) is an association list `List (String × List String)`
  whose keys are assumed distinct and already in canonical form (Go map
  iteration order is unspecified; the list order stands in for one such order).
* A nilable Go pointer result is an `Option`; a Go panic inside modelled code
  is `Option.none` of the surrounding computation.
* `regexp` is modelled by an executable regex engine covering the subset of
  Go regular-expression syntax that `Route` produces and the repository's
  route patterns use: literal characters, `.`, character classes `[...]`
  (ranges and single characters, optionally negated), `\d` and escaped
  punctuation, postfix `*` and `+` on single-character atoms, parenthesized
  capture groups, and the outer `^...$` anchors that `Route` always adds.
  `regexpCompile` returns `none` both when Go's `regexp.Compile` would fail
  and when the pattern falls outside this modelled subset; every pattern
  appearing in a theorem below is inside the subset.  Matching is greedy
  backtracking (leftmost-first), which agrees with Go's submatch semantics,
  and the whole string must be consumed (the compiled pattern is anchored).
-/

namespace Webgo

/-! ## Regex engine (model of the `regexp` package, anchored subset) -/

/-- A single-character matcher: a literal character, `.` (any character other
than a newline), or a character class of ranges, possibly negated. -/
inductive Atom where
  | ch (c : Char)
  | any
  | cls (neg : Bool) (ranges : List (Char × Char))
deriving Repr, DecidableEq

/-- Abstract syntax of the modelled regex subset.  `group idx r` is a
parenthesized capture group; indices are assigned left-to-right from 1 in
order of the opening parenthesis, as in Go's `regexp`. -/
inductive Regex where
  | eps
  | atom (a : Atom)
  | star (a : Atom)
  | plus (a : Atom)
  | group (idx : Nat) (r : Regex)
  | cat (r1 r2 : Regex)
deriving Repr, DecidableEq

/-- Does atom `a` accept character `c`? -/
def atomMatches : Atom → Char → Bool
  | .ch d, c => c == d
  | .any, c => c != '\n'
  | .cls neg ranges, c =>
      let inRanges := ranges.any fun r => decide (r.1 ≤ c) && decide (c ≤ r.2)
      if neg then !inRanges else inRanges

/-- Characters that are regex metacharacters in the modelled subset: a bare
occurrence outside a character class is not a literal. -/
def metachars : List Char :=
  ['.', '+', '*', '?', '(', ')', '[', ']', '\x7b', '\x7d', '|', '^', '$', '\\']

/-- Parse the items of a character class after the opening `[` (and after an
optional `^`), up to and including the closing `]`.  Single characters become
one-point ranges. -/
def parseClsItems : List Char → Option (List (Char × Char) × List Char)
  | ']' :: rest => some ([], rest)
  | a :: '-' :: b :: rest =>
      if b = ']' ∨ a = '\\' then none
      else (parseClsItems rest).map fun p => ((a, b) :: p.1, p.2)
  | c :: rest =>
      if c = '\\' then none
      else (parseClsItems rest).map fun p => ((c, c) :: p.1, p.2)
  | [] => none

/-- Escapes: `\d` is the digit class; an escaped non-alphanumeric character is
that literal character; other letter escapes are outside the modelled subset. -/
def parseEscape (c : Char) : Option Atom :=
  if c = 'd' then some (.cls false [('0', '9')])
  else if c.isAlphanum then none
  else some (.ch c)

/-- Recursive-descent parse of a regex sequence: parses until the end of input
or an unconsumed `)`, returning the parsed regex, the remaining input, and the
updated capture-group counter.  `fuel` bounds the recursion depth; an input of
length `n` never needs more than `n + 1` fuel, and exhausted fuel yields
`none` (outside the modelled subset). -/
def parseSeq : Nat → List Char → Nat → Option (Regex × List Char × Nat)
  | 0, _, _ => none
  | fuel + 1, s, g =>
    -- continue the sequence after one parsed element
    let cont : Regex → List Char → Nat → Option (Regex × List Char × Nat) :=
      fun r1 rest g1 =>
        (parseSeq fuel rest g1).map fun p => (Regex.cat r1 p.1, p.2.1, p.2.2)
    -- apply an optional postfix repetition operator to a single-char atom
    let withRep : Atom → List Char → Nat → Option (Regex × List Char × Nat) :=
      fun a rest g1 =>
        match rest with
        | '*' :: rest2 => cont (Regex.star a) rest2 g1
        | '+' :: rest2 => cont (Regex.plus a) rest2 g1
        | '?' :: _ => none
        | '\x7b' :: _ => none
        | _ => cont (Regex.atom a) rest g1
    match s with
    | [] => some (.eps, [], g)
    | ')' :: _ => some (.eps, s, g)
    | '(' :: rest =>
      match parseSeq fuel rest (g + 1) with
      | some (inner, ')' :: rest2, g2) =>
        match rest2 with
        | '*' :: _ => none
        | '+' :: _ => none
        | '?' :: _ => none
        | '\x7b' :: _ => none
        | _ => cont (Regex.group (g + 1) inner) rest2 g2
      | _ => none
    | '.' :: rest => withRep .any rest g
    | '[' :: rest =>
      let negRest : Bool × List Char :=
        match rest with
        | '^' :: r => (true, r)
        | _ => (false, rest)
      match parseClsItems negRest.2 with
      | some (items, rest2) =>
          if items.isEmpty then none else withRep (.cls negRest.1 items) rest2 g
      | none => none
    | '\\' :: c :: rest =>
      match parseEscape c with
      | some a => withRep a rest g
      | none => none
    | ['\\'] => none
    | c :: rest =>
      if c ∈ metachars then none else withRep (.ch c) rest g

/-- A compiled regular expression: the parsed body between the `^...$`
anchors, plus the number of capture groups (Go's `NumSubexp`). -/
structure CompiledRe where
  re : Regex
  numGroups : Nat
deriving Repr, DecidableEq

/-- Model of `regexp.Compile` on the anchored patterns `Route` constructs:
the pattern must start with `^` and end with `$`, and the body must parse in
the modelled subset.  `none` covers both a Go compilation error and a pattern
outside the subset. -/
def regexpCompile (pattern : String) : Option CompiledRe :=
  match pattern.data with
  | '^' :: rest =>
    match rest.getLast? with
    | some '$' =>
      let body := rest.dropLast
      match parseSeq (body.length + 1) body 0 with
      | some (r, [], g) => some { re := r, numGroups := g }
      | _ => none
    | _ => none
  | _ => none

/-- Capture environment: group index paired with the captured characters,
most recent binding first. -/
abbrev Caps := List (Nat × List Char)

/-- Greedy matching of `a*` against `s` with continuation `k`: consume as many
`a`-characters as possible, backtracking one character at a time when the
continuation fails.  This is Go's leftmost-first (backtracking) semantics. -/
def matchStar (a : Atom) : List Char → (List Char → Caps → Option Caps) → Caps → Option Caps
  | s, k, caps =>
    match s with
    | [] => k [] caps
    | c :: rest =>
      if atomMatches a c then
        match matchStar a rest k caps with
        | some result => some result
        | none => k s caps
      else k s caps

/-- Continuation-passing matcher: `mmatch r s k caps` feeds every way for `r`
to consume a prefix of `s` into `k` (longest first for repetitions) and
returns the first success. -/
def mmatch : Regex → List Char → (List Char → Caps → Option Caps) → Caps → Option Caps
  | .eps, s, k, caps => k s caps
  | .atom a, s, k, caps =>
    match s with
    | [] => none
    | c :: rest => if atomMatches a c then k rest caps else none
  | .star a, s, k, caps => matchStar a s k caps
  | .plus a, s, k, caps =>
    match s with
    | [] => none
    | c :: rest => if atomMatches a c then matchStar a rest k caps else none
  | .group i r, s, k, caps =>
    mmatch r s (fun rest caps2 => k rest ((i, s.take (s.length - rest.length)) :: caps2)) caps
  | .cat r1 r2, s, k, caps =>
    mmatch r1 s (fun rest caps2 => mmatch r2 rest k caps2) caps

/-- Run a compiled (anchored) regex against a whole string, returning the
capture environment on success. -/
def reRun (cre : CompiledRe) (s : String) : Option Caps :=
  mmatch cre.re s.data (fun rest caps => if rest.isEmpty then some caps else none) []

/-- Model of `Regexp.MatchString` for the anchored patterns `Route` builds. -/
def reMatchString (cre : CompiledRe) (s : String) : Bool :=
  (reRun cre s).isSome

/-- Text captured by group `i`, empty if the group did not participate. -/
def capsLookup (caps : Caps) (i : Nat) : List Char :=
  match caps.find? fun p => p.1 == i with
  | some p => p.2
  | none => []

/-- Model of `Regexp.FindStringSubmatch(s)[1:]`: one entry per capture group,
in group order (1 through `numGroups`), the empty string for a group that did
not participate in the match; `[]` when there is no match. -/
def reSubmatches (cre : CompiledRe) (s : String) : List String :=
  match reRun cre s with
  | some caps => (List.range cre.numGroups).map fun i => String.mk (capsLookup caps (i + 1))
  | none => []

/-! ## Data model (src/web.go lines 11-36) -/

/-- `Request` (web.go:11-18).  `Query` holds the first value of each query
parameter, `Arguments` the captured path segments. -/
structure Request where
  Method : String
  Path : String
  Query : List (String × String)
  Headers : List (String × List String)
  Body : String
  Arguments : List String

/-- `Response` (web.go:20-25).  `BodyReader` is the optional streamed body
(the bytes the `io.Reader` would yield); it takes precedence when writing. -/
structure Response where
  Status : Nat
  Headers : List (String × List String)
  Body : String
  BodyReader : Option String

/-- `Processor` (web.go:27-30): a match predicate and a handler. -/
structure Processor where
  Match : String → Bool × List String
  Process : Request → Response

/-- `Application` (web.go:32-36).  The `*http.Server` is irrelevant to
dispatch; it is modelled as an abstract reference identifier. -/
structure Application where
  httpServer : Nat
  processors : List Processor
  defaultProcessor : Option Processor

/-! ## Transport-side value objects (the parts of `net/http` the code reads) -/

/-- The fields of `*http.Request` that `ParseRequest` reads.  `Body` is the
byte sequence `ioutil.ReadAll` yields (the read error is discarded by the
source); `URLQuery` is `r.URL.Query()`, whose value lists are never empty. -/
structure HttpRequest where
  Method : String
  URLPath : String
  URLQuery : List (String × List String)
  Header : List (String × List String)
  Body : String

/-- The fields of `*http.Response` that `ParseResponse` reads. -/
structure HttpResponse where
  StatusCode : Nat
  Header : List (String × List String)
  Body : String

/-- What ends up written through the `http.ResponseWriter`: a status code,
single-valued headers, and the body bytes. -/
structure HttpOutput where
  status : Nat
  headers : List (String × String)
  body : String
deriving Repr, DecidableEq

/-- `http.Error(w, msg, code)`: sets the two standard headers, writes the
status, and writes `msg` followed by a newline as the body. -/
def httpError (msg : String) (code : Nat) : HttpOutput :=
  { status := code
    headers := [("Content-Type", "text/plain; charset=utf-8"),
                ("X-Content-Type-Options", "nosniff")]
    body := msg ++ "\n" }

/-! ## Helper constructors (web.go:38-72) -/

/-- `http.Header.Set`: replace all existing values of `name` by `[v]`, or
append the binding when `name` is absent. -/
def headerSet (h : List (String × List String)) (name v : String) :
    List (String × List String) :=
  if h.any fun kv => kv.1 == name then
    h.map fun kv => if kv.1 == name then (kv.1, [v]) else kv
  else h ++ [(name, [v])]

/-- `Respond` (web.go:38-44). -/
def Respond (status : Nat) (body : String) : Response :=
  { Status := status, Body := body, Headers := [], BodyReader := none }

/-- `Redirect` (web.go:46-50). -/
def Redirect (redirectUrl : String) : Response :=
  let resp := Respond 302 ""
  { resp with Headers := headerSet resp.Headers "Location" redirectUrl }

/-- `NewApplication` (web.go:52-59); the server back-reference is an
abstract identifier. -/
def NewApplication : Application :=
  { httpServer := 0, processors := [], defaultProcessor := none }

/-- `SetDefaultProcessor` (web.go:66-68). -/
def SetDefaultProcessor (app : Application) (p : Processor) : Application :=
  { app with defaultProcessor := some p }

/-- `AddProcessor` (web.go:70-72). -/
def AddProcessor (app : Application) (p : Processor) : Application :=
  { app with processors := app.processors ++ [p] }

/-! ## Route registration (web.go:74-95) -/

/-- `strings.TrimRight s cutset`: remove every trailing character that is in
`cutset`. -/
def trimRight (s : String) (cutset : List Char) : String :=
  String.mk ((s.data.reverse.dropWhile fun c => cutset.contains c).reverse)

/-- The pattern string `Route` hands to `regexp.Compile` (web.go:77-81):
trailing `/` trimmed, a `.* ` method wildcard prepended when the pattern has
no space, and `^`/`$` anchors added. -/
def routePattern (pattern : String) : String :=
  let p1 := trimRight pattern ['/']
  let p2 := if p1.data.contains ' ' then p1 else ".* " ++ p1
  "^" ++ p2 ++ "$"

/-- The `Processor` built by `Route` (web.go:82-94).  The compilation error is
discarded exactly as in the source (`re, _ := regexp.Compile(...)`).  When
compilation fails, the Go closure holds a nil `*Regexp` and the first `Match`
call would dereference it; no theorem below exercises `Match` of a processor
whose pattern failed to compile, so that branch is modelled as a non-match. -/
def routeProcessor (pattern : String) (procFunc : Request → Response) : Processor :=
  let re := regexpCompile (routePattern pattern)
  { Match := fun path =>
      match re with
      | some cre =>
        if reMatchString cre path then (true, reSubmatches cre path) else (false, [])
      | none => (false, [])
    Process := procFunc }

/-- `Route` (web.go:76-95). -/
def Route (app : Application) (pattern : String) (procFunc : Request → Response) :
    Application :=
  AddProcessor app (routeProcessor pattern procFunc)

/-! ## Request/response translation (web.go:97-127) -/

/-- The `Request` value `ParseRequest` builds (web.go:107-113): query values
flattened to their first entry, headers copied verbatim, body kept as the raw
bytes, `Arguments` left at its zero value. -/
def parseRequestCore (r : HttpRequest) : Request :=
  { Method := r.Method
    Path := r.URLPath
    Query := r.URLQuery.map fun nv => (nv.1, nv.2.headD "")
    Headers := r.Header
    Body := r.Body
    Arguments := [] }

/-- `ParseRequest` (web.go:97-114).  The Go function returns `*Request`; the
`Option` mirrors the nilable pointer that `ServeHTTP` checks. -/
def ParseRequest (r : HttpRequest) : Option Request :=
  some (parseRequestCore r)

/-- `ParseResponse` (web.go:116-127): status and headers copied, body read
fully into memory, no streamed body. -/
def ParseResponse (resp : HttpResponse) : Response :=
  { Status := resp.StatusCode
    Headers := resp.Header
    Body := resp.Body
    BodyReader := none }

/-! ## Dispatch (web.go:129-163) -/

/-- `w.Header().Set` on the single-valued output header list. -/
def setOutHeader (hs : List (String × String)) (name v : String) :
    List (String × String) :=
  if hs.any fun kv => kv.1 == name then
    hs.map fun kv => if kv.1 == name then (kv.1, v) else kv
  else hs ++ [(name, v)]

/-- The header-copying loop of `ServeHTTP` (web.go:153-155):
`w.Header().Set(name, value[0])` for each stored header.  `value[0]` on an
empty value slice is a Go panic, modelled as `none`. -/
def writeHeaders : List (String × List String) → List (String × String) →
    Option (List (String × String))
  | [], acc => some acc
  | (_, []) :: _, _ => none
  | (name, v :: _) :: rest, acc => writeHeaders rest (setOutHeader acc name v)

/-- The response-emission tail of `ServeHTTP` (web.go:153-162): copy headers,
write the status, then write the streamed body if present, else the body
bytes. -/
def writeResponse (resp : Response) : Option HttpOutput :=
  (writeHeaders resp.Headers []).map fun hs =>
    { status := resp.Status
      headers := hs
      body :=
        match resp.BodyReader with
        | some stream => stream
        | none => resp.Body }

/-- The normalized string the matching loop tests (web.go:137-138):
`"<method> <path-with-trailing-slashes-trimmed>"`. -/
def dispatchPath (req : Request) : String :=
  req.Method ++ " " ++ trimRight req.Path ['/']

/-- The scan loop of `ServeHTTP` (web.go:139-145): the first processor whose
predicate accepts `path`, with its captures. -/
def findProcessor : List Processor → String → Option (Processor × List String)
  | [], _ => none
  | p :: rest, path =>
    let r := p.Match path
    if r.1 then some (p, r.2) else findProcessor rest path

/-- `ServeHTTP` after a successful request translation (web.go:136-162).
Returns the router state after the call (the source never writes to `app`)
together with what is written to the response writer; `none` output models a
panic while emitting. -/
def dispatchWith (app : Application) (req : Request) : Application × Option HttpOutput :=
  let path := dispatchPath req
  let found := findProcessor app.processors path
  let processor : Option Processor :=
    match found with
    | some pr => some pr.1
    | none => app.defaultProcessor
  let req2 : Request :=
    match found with
    | some pr => { req with Arguments := pr.2 }
    | none => req
  match processor with
  | none => (app, some (httpError "Not Found" 404))
  | some p => (app, writeResponse (p.Process req2))

/-- `ServeHTTP` (web.go:129-163), as a state-passing function: the pair of
the router state after the call and the bytes/status written back. -/
def ServeHTTP (app : Application) (r : HttpRequest) : Application × Option HttpOutput :=
  match ParseRequest r with
  | none => (app, some (httpError "Bad Request" 400))
  | some req => dispatchWith app req

/-- The number of capture groups of a compiled pattern (Go: `NumSubexp`),
zero when the pattern does not compile. -/
def reNumGroups (pattern : String) : Nat :=
  match regexpCompile pattern with
  | some cre => cre.numGroups
  | none => 0

/-- The parse of `/ping` after the `.* ` method wildcard: the literal tail
` /ping` of the compiled route body `.* /ping`. -/
def pingTail : Regex :=
  .cat (.atom (.ch ' ')) (.cat (.atom (.ch '/')) (.cat (.atom (.ch 'p'))
    (.cat (.atom (.ch 'i')) (.cat (.atom (.ch 'n')) (.cat (.atom (.ch 'g')) .eps)))))

/-! ## Helper lemmas -/

/-- The matching loop skips a block of processors none of which match. -/
theorem findProcessor_append_of_none (pre l : List Processor) (path : String)
    (h : ∀ p ∈ pre, (p.Match path).1 = false) :
    findProcessor (pre ++ l) path = findProcessor l path := by
  induction pre with
  | nil => rfl
  | cons p rest ih =>
    have hp : (p.Match path).1 = false := h p (List.mem_cons_self _ _)
    simp only [List.cons_append, findProcessor, hp, Bool.false_eq_true, if_false]
    exact ih fun q hq => h q (List.mem_cons_of_mem _ hq)

/-- The matching loop finds nothing when no processor matches. -/
theorem findProcessor_eq_none (ps : List Processor) (path : String)
    (h : ∀ p ∈ ps, (p.Match path).1 = false) : findProcessor ps path = none := by
  have := findProcessor_append_of_none ps [] path h
  simpa using this

/-- The matching loop stops at the head processor when it matches. -/
theorem findProcessor_cons_of_match (p : Processor) (rest : List Processor)
    (path : String) (args : List String) (h : p.Match path = (true, args)) :
    findProcessor (p :: rest) path = some (p, args) := by
  simp [findProcessor, h]

/-- Greedy repetition succeeds whenever its continuation already succeeds on
the current input (the zero-iterations split is always among those tried). -/
theorem matchStar_isSome_of_k (a : Atom) (s : List Char)
    (k : List Char → Caps → Option Caps) (caps : Caps)
    (h : (k s caps).isSome) : (matchStar a s k caps).isSome := by
  cases s with
  | nil => simpa [matchStar] using h
  | cons c rest =>
    by_cases hc : atomMatches a c = true
    · simp only [matchStar, hc, if_true]
      cases hms : matchStar a rest k caps with
      | none => simpa using h
      | some v => simp
    · simpa [matchStar, hc] using h

/-- Greedy repetition of a single-character atom can consume an arbitrary
block of accepted characters: if every character of `xs` is accepted and the
continuation succeeds after them, the whole repetition succeeds. -/
theorem matchStar_append (a : Atom) (xs ys : List Char)
    (k : List Char → Caps → Option Caps) (caps : Caps)
    (hall : ∀ c ∈ xs, atomMatches a c = true)
    (hk : (k ys caps).isSome) : (matchStar a (xs ++ ys) k caps).isSome := by
  induction xs with
  | nil => exact matchStar_isSome_of_k a ys k caps hk
  | cons x xs ih =>
    have hx : atomMatches a x = true := hall x (List.mem_cons_self _ _)
    have hrec := ih fun c hc => hall c (List.mem_cons_of_mem _ hc)
    simp only [List.cons_append, matchStar, hx, if_true]
    cases hms : matchStar a (xs ++ ys) k caps with
    | none => rw [hms] at hrec; simp at hrec
    | some v => simp

/-- On a match, the submatch list has one entry per capture group. -/
theorem reSubmatches_length (cre : CompiledRe) (s : String)
    (h : reMatchString cre s = true) : (reSubmatches cre s).length = cre.numGroups := by
  unfold reMatchString at h
  cases hr : reRun cre s with
  | none => rw [hr] at h; simp at h
  | some caps => simp [reSubmatches, hr]

/-- A pattern with no capture groups yields the empty capture list. -/
theorem reSubmatches_nil_of_no_groups (cre : CompiledRe) (s : String)
    (h : cre.numGroups = 0) : reSubmatches cre s = [] := by
  unfold reSubmatches
  cases reRun cre s <;> simp [h]

/-- `Set` on a header name absent from the accumulator appends the binding. -/
theorem setOutHeader_fresh (acc : List (String × String)) (name v : String)
    (h : ∀ kv ∈ acc, kv.1 ≠ name) : setOutHeader acc name v = acc ++ [(name, v)] := by
  unfold setOutHeader
  have hany : (acc.any fun kv => kv.1 == name) = false := by
    simp only [List.any_eq_false]
    intro kv hkv
    simpa using h kv hkv
  simp [hany]

/-- The header-emission fold on single-valued headers with distinct names
succeeds and appends each name with its (only) value, in order. -/
theorem writeHeaders_singles (hs : List (String × List String)) :
    ∀ acc : List (String × String),
    (∀ nv ∈ hs, ∃ v, nv.2 = [v]) →
    (hs.map Prod.fst).Nodup →
    (∀ n ∈ hs.map Prod.fst, ∀ kv ∈ acc, kv.1 ≠ n) →
    writeHeaders hs acc = some (acc ++ hs.map fun nv => (nv.1, nv.2.headD "")) := by
  induction hs with
  | nil => intro acc _ _ _; simp [writeHeaders]
  | cons nv rest ih =>
    intro acc hone hnd hfresh
    obtain ⟨v, hv⟩ := hone nv (List.mem_cons_self _ _)
    obtain ⟨name, vs⟩ := nv
    simp only at hv
    subst hv
    have hstep : setOutHeader acc name v = acc ++ [(name, v)] :=
      setOutHeader_fresh acc name v fun kv hkv =>
        hfresh name (by simp) kv hkv
    have hnd' : (rest.map Prod.fst).Nodup := (List.nodup_cons.mp hnd).2
    have hname : name ∉ rest.map Prod.fst := (List.nodup_cons.mp hnd).1
    have hfresh' : ∀ n ∈ rest.map Prod.fst, ∀ kv ∈ acc ++ [(name, v)], kv.1 ≠ n := by
      intro n hn kv hkv
      rcases List.mem_append.mp hkv with hkv | hkv
      · exact hfresh n (List.mem_cons_of_mem _ hn) kv hkv
      · have : kv = (name, v) := by simpa using hkv
        subst this
        intro hEq
        apply hname
        have hnn : name = n := hEq
        rw [hnn]
        exact hn
    have hone' : ∀ nv ∈ rest, ∃ w, nv.2 = [w] :=
      fun nv hnv => hone nv (List.mem_cons_of_mem _ hnv)
    calc writeHeaders ((name, [v]) :: rest) acc
        = writeHeaders rest (setOutHeader acc name v) := rfl
      _ = writeHeaders rest (acc ++ [(name, v)]) := by rw [hstep]
      _ = some ((acc ++ [(name, v)]) ++ rest.map fun nv => (nv.1, nv.2.headD "")) :=
          ih _ hone' hnd' hfresh'
      _ = some (acc ++ ((name, [v]) :: rest).map fun nv => (nv.1, nv.2.headD "")) := by
          simp

/-! ## Claim theorems -/

/-- C1: dispatch invokes the first processor, in registration order, whose
predicate matches the normalized request string, and attaches its captures to
the request; any later matching processor (here `p2`) is never invoked.  The
hypothesis on `pre` pins `p1` as the first match, which is what the claim's
"at most one Processor handles a request: the first whose predicate matches"
asserts. -/
theorem serve_dispatches_first_matching_processor
    (app : Application) (r : HttpRequest) (pre mid post : List Processor)
    (p1 p2 : Processor) (args : List String)
    (hps : app.processors = pre ++ p1 :: (mid ++ p2 :: post))
    (hpre : ∀ p ∈ pre, (p.Match (dispatchPath (parseRequestCore r))).1 = false)
    (h1 : p1.Match (dispatchPath (parseRequestCore r)) = (true, args))
    (_h2 : (p2.Match (dispatchPath (parseRequestCore r))).1 = true) :
    (ServeHTTP app r).2 =
      writeResponse (p1.Process { parseRequestCore r with Arguments := args }) := by
  have hfp : findProcessor app.processors (dispatchPath (parseRequestCore r)) =
      some (p1, args) := by
    rw [hps, findProcessor_append_of_none _ _ _ hpre,
      findProcessor_cons_of_match _ _ _ _ h1]
  simp [ServeHTTP, ParseRequest, dispatchWith, hfp]

/-- Witness for C1: two processors both match; the first (registered earlier,
returning 201) handles the request, not the second (202). -/
theorem serve_dispatches_first_matching_processor_app :
    (ServeHTTP
        { httpServer := 0
          processors :=
            [{ Match := fun _ => (true, ["a"]), Process := fun _ => Respond 201 "one" },
             { Match := fun _ => (true, ["b"]), Process := fun _ => Respond 202 "two" }]
          defaultProcessor := none }
        { Method := "GET", URLPath := "/x", URLQuery := [], Header := [], Body := "" }).2 =
      some { status := 201, headers := [], body := "one" } := by
  have h := serve_dispatches_first_matching_processor
    { httpServer := 0
      processors :=
        [{ Match := fun _ => (true, ["a"]), Process := fun _ => Respond 201 "one" },
         { Match := fun _ => (true, ["b"]), Process := fun _ => Respond 202 "two" }]
      defaultProcessor := none }
    { Method := "GET", URLPath := "/x", URLQuery := [], Header := [], Body := "" }
    [] [] []
    { Match := fun _ => (true, ["a"]), Process := fun _ => Respond 201 "one" }
    { Match := fun _ => (true, ["b"]), Process := fun _ => Respond 202 "two" }
    ["a"] rfl (by intro p hp; cases hp) rfl rfl
  exact h.trans rfl

/-- C2 counterexample: with no routes and no default, dispatching `GET
/anything` writes a 404 whose body is the error text `"Not Found\n"`, which
is not empty — refuting the claim's "empty response body". -/
theorem notFound_body_not_empty :
    (ServeHTTP NewApplication
        { Method := "GET", URLPath := "/anything", URLQuery := [], Header := [], Body := "" }).2 =
      some { status := 404
             headers := [("Content-Type", "text/plain; charset=utf-8"),
                         ("X-Content-Type-Options", "nosniff")]
             body := "Not Found\n" } ∧
      ("Not Found\n" : String) ≠ "" :=
  ⟨rfl, by decide⟩

/-- C2 (amended): when no registered processor matches and no default is set,
dispatch writes exactly the fixed `http.Error` 404 outcome — status 404 and
body `"Not Found\n"` — and no handler is invoked (the output is the constant
error response, independent of every handler). -/
theorem serve_no_match_no_default_404 (app : Application) (r : HttpRequest)
    (hdef : app.defaultProcessor = none)
    (hnone : ∀ p ∈ app.processors, (p.Match (dispatchPath (parseRequestCore r))).1 = false) :
    (ServeHTTP app r).2 = some (httpError "Not Found" 404) := by
  have hfp := findProcessor_eq_none app.processors _ hnone
  simp [ServeHTTP, ParseRequest, dispatchWith, hfp, hdef]

/-- Witness for C2 (amended): one registered processor that does not match
and no default give the 404 error outcome. -/
theorem serve_no_match_no_default_404_app :
    (ServeHTTP
        { httpServer := 0
          processors := [{ Match := fun _ => (false, []), Process := fun _ => Respond 200 "hi" }]
          defaultProcessor := none }
        { Method := "GET", URLPath := "/x", URLQuery := [], Header := [], Body := "" }).2 =
      some (httpError "Not Found" 404) := by
  apply serve_no_match_no_default_404 _ _ rfl
  intro p hp
  have hp' : p = { Match := fun _ => (false, []), Process := fun _ => Respond 200 "hi" } := by
    simpa using hp
  rw [hp']

/-- C3 (code bug): `Route` discards the `regexp.Compile` error (`re, _ :=`),
so an invalid pattern such as `"("` — whose constructed pattern `"^.* ($"`
fails to compile — is still registered as a processor instead of failing fast
at registration time. -/
theorem route_invalid_pattern_silently_registered :
    regexpCompile (routePattern "(") = none ∧
      (Route NewApplication "(" fun _ => Respond 200 "").processors.length = 1 :=
  ⟨rfl, rfl⟩

/-- C6: when no registered processor matches but a default is set, dispatch
invokes the default processor's handler on the translated request, whose
captured-argument sequence is empty (`Arguments` keeps its zero value). -/
theorem serve_default_processor_empty_arguments
    (app : Application) (r : HttpRequest) (d : Processor)
    (hdef : app.defaultProcessor = some d)
    (hnone : ∀ p ∈ app.processors, (p.Match (dispatchPath (parseRequestCore r))).1 = false) :
    (ServeHTTP app r).2 = writeResponse (d.Process (parseRequestCore r)) ∧
      (parseRequestCore r).Arguments = [] := by
  have hfp := findProcessor_eq_none app.processors _ hnone
  refine ⟨?_, rfl⟩
  simp [ServeHTTP, ParseRequest, dispatchWith, hfp, hdef]

/-- Witness for C6: a non-matching route plus a default handler returning
200/"default" yields exactly that response. -/
theorem serve_default_processor_empty_arguments_app :
    (ServeHTTP
        { httpServer := 0
          processors := [{ Match := fun _ => (false, []), Process := fun _ => Respond 200 "hi" }]
          defaultProcessor :=
            some { Match := fun _ => (false, []), Process := fun _ => Respond 200 "default" } }
        { Method := "GET", URLPath := "/none", URLQuery := [], Header := [], Body := "" }).2 =
      some { status := 200, headers := [], body := "default" } := by
  have h := serve_default_processor_empty_arguments
    { httpServer := 0
      processors := [{ Match := fun _ => (false, []), Process := fun _ => Respond 200 "hi" }]
      defaultProcessor :=
        some { Match := fun _ => (false, []), Process := fun _ => Respond 200 "default" } }
    { Method := "GET", URLPath := "/none", URLQuery := [], Header := [], Body := "" }
    { Match := fun _ => (false, []), Process := fun _ => Respond 200 "default" }
    rfl
    (by
      intro p hp
      have hp' : p = { Match := fun _ => (false, []), Process := fun _ => Respond 200 "hi" } := by
        simpa using hp
      rw [hp'])
  exact h.1.trans rfl

/-- C9: request translation never fails — `ParseRequest` always returns a
(non-nil) `Request` whose body is the raw bytes (read errors discarded, no
structured decoding) — so the 400 Bad Request branch of `ServeHTTP` is
unreachable: every call proceeds to the post-translation dispatch.  (A
handler may of course itself construct a 400 response; the translation layer
never does.) -/
theorem parse_request_total_no_400_branch (app : Application) (r : HttpRequest) :
    ParseRequest r = some (parseRequestCore r) ∧
      ServeHTTP app r = dispatchWith app (parseRequestCore r) :=
  ⟨rfl, rfl⟩

/-- C10: dispatch leaves the router state unchanged — the processor list, the
default processor and the server reference after `ServeHTTP` are those before
the call; the per-request state lives only in the `Request`/`Response` values
of the call. -/
theorem serve_leaves_router_state_unchanged (app : Application) (r : HttpRequest) :
    (ServeHTTP app r).1.processors = app.processors ∧
      (ServeHTTP app r).1.defaultProcessor = app.defaultProcessor ∧
      (ServeHTTP app r).1.httpServer = app.httpServer := by
  have h : (ServeHTTP app r).1 = app := by
    unfold ServeHTTP ParseRequest dispatchWith
    cases hf : findProcessor app.processors (dispatchPath (parseRequestCore r)) with
    | none => cases hd : app.defaultProcessor <;> simp [hf, hd]
    | some pr => simp [hf]
  rw [h]
  exact ⟨rfl, rfl, rfl⟩

/-- C4: for a route pattern that compiles with `k` capture groups
(`cre.numGroups`, Go's `NumSubexp`, counts the parenthesized groups in
left-to-right order of their opening parentheses), every path the compiled
predicate accepts yields exactly `k` captured strings; the entry at position
`i` is the text of group `i + 1`, so the captures are in left-to-right group
order, and a pattern with no groups yields the empty capture sequence. -/
theorem route_match_capture_count (pattern : String) (f : Request → Response)
    (path : String) (cre : CompiledRe) (args : List String)
    (hc : regexpCompile (routePattern pattern) = some cre)
    (hm : (routeProcessor pattern f).Match path = (true, args)) :
    args.length = cre.numGroups := by
  simp only [routeProcessor, hc] at hm
  by_cases hms : reMatchString cre path = true
  · rw [if_pos hms] at hm
    injection hm with h1 h2
    rw [← h2]
    exact reSubmatches_length cre path hms
  · rw [if_neg hms] at hm
    injection hm with h1 h2
    exact absurd h1.symm (by simp)

/-- Witness for C4: the two-group pattern `/users/([a-z]+)/(\d+)` compiles,
and the matching path `GET /users/alice/42` yields exactly the two captures
`["alice", "42"]`, in left-to-right group order. -/
theorem route_match_capture_count_app :
    (regexpCompile (routePattern "/users/([a-z]+)/(\\d+)")).isSome = true ∧
      (routeProcessor "/users/([a-z]+)/(\\d+)" fun _ => Respond 200 "").Match
          "GET /users/alice/42" = (true, ["alice", "42"]) ∧
      (["alice", "42"] : List String).length =
        reNumGroups (routePattern "/users/([a-z]+)/(\\d+)") := by
  obtain ⟨cre, hc⟩ : ∃ cre, regexpCompile (routePattern "/users/([a-z]+)/(\\d+)") = some cre :=
    ⟨_, rfl⟩
  have hm : (routeProcessor "/users/([a-z]+)/(\\d+)" fun _ => Respond 200 "").Match
      "GET /users/alice/42" = (true, ["alice", "42"]) := rfl
  have hlen := route_match_capture_count "/users/([a-z]+)/(\\d+)"
    (fun _ => Respond 200 "") "GET /users/alice/42" cre ["alice", "42"] hc hm
  have hng : reNumGroups (routePattern "/users/([a-z]+)/(\\d+)") = cre.numGroups := by
    simp [reNumGroups, hc]
  refine ⟨by rw [hc]; rfl, hm, ?_⟩
  rw [hng]
  exact hlen

/-- Trailing slashes are dropped by the path normalization: appending a `/`
to a string does not change its `TrimRight`-by-`/` normal form. -/
theorem trimRight_append_slash (s : String) :
    trimRight (s ++ "/") ['/'] = trimRight s ['/'] := by
  unfold trimRight
  rw [String.data_append]
  simp [List.reverse_append, List.dropWhile_cons]

/-- C5: trailing path separators are insignificant to matching — dispatching
a request whose path carries an extra trailing `/` scans the processors with
the same normalized string, so the match outcome, the chosen processor, and
the attached captures are all identical.  (Only the matching is insensitive:
the handler still receives the original, untrimmed `Path`.) -/
theorem dispatch_trailing_slash_insensitive (app : Application) (r : HttpRequest) :
    dispatchPath (parseRequestCore { r with URLPath := r.URLPath ++ "/" }) =
      dispatchPath (parseRequestCore r) ∧
    findProcessor app.processors
        (dispatchPath (parseRequestCore { r with URLPath := r.URLPath ++ "/" })) =
      findProcessor app.processors (dispatchPath (parseRequestCore r)) := by
  have hdp : dispatchPath (parseRequestCore { r with URLPath := r.URLPath ++ "/" }) =
      dispatchPath (parseRequestCore r) := by
    unfold dispatchPath parseRequestCore
    rw [trimRight_append_slash]
  exact ⟨hdp, by rw [hdp]⟩

/-- The pattern `Route` builds for `/ping` compiles to a leading `.*`
wildcard followed by the literal tail ` /ping`, with no capture groups. -/
theorem ping_compile :
    regexpCompile (routePattern "/ping") = some ⟨.cat (.star .any) pingTail, 0⟩ := rfl

/-- The compiled `/ping` route accepts `m ++ " /ping"` for every
newline-free `m` — the `.* ` method wildcard absorbs any method token. -/
theorem ping_match (f : Request → Response) (m : String)
    (hm : ∀ c ∈ m.data, c ≠ '\n') :
    (routeProcessor "/ping" f).Match (m ++ " /ping") = (true, []) := by
  have hsome : (reRun ⟨.cat (.star .any) pingTail, 0⟩ (m ++ " /ping")).isSome := by
    unfold reRun
    rw [String.data_append]
    simp only [mmatch]
    apply matchStar_append
    · intro c hc
      simp only [atomMatches, bne_iff_ne, ne_eq, decide_eq_true_eq]
      exact hm c hc
    · decide
  have hms : reMatchString ⟨.cat (.star .any) pingTail, 0⟩ (m ++ " /ping") = true := hsome
  simp only [routeProcessor, ping_compile]
  rw [if_pos hms, reSubmatches_nil_of_no_groups _ _ rfl]

/-- C7: a route pattern with no method token (`/ping`) is registered with a
`.* ` method wildcard and `^`/`$` anchors, so a request for `/ping/` with any
(newline-free) HTTP method reaches the route's handler: the trailing slash is
trimmed, the method is ignored, and the handler's 200 empty-body response is
written back. -/
theorem route_method_wildcard_matches_any_method
    (m : String) (q hs : List (String × List String)) (b : String)
    (hm : ∀ c ∈ m.data, c ≠ '\n') :
    (ServeHTTP (Route NewApplication "/ping" fun _ => Respond 200 "")
        { Method := m, URLPath := "/ping/", URLQuery := q, Header := hs, Body := b }).2 =
      some { status := 200, headers := [], body := "" } := by
  have hpath : dispatchPath (parseRequestCore
      { Method := m, URLPath := "/ping/", URLQuery := q, Header := hs, Body := b }) =
      m ++ " /ping" := by
    show m ++ " " ++ trimRight "/ping/" ['/'] = m ++ " /ping"
    rw [show trimRight "/ping/" ['/'] = "/ping" from rfl, String.append_assoc]
    rfl
  have hmatch := ping_match (fun _ => Respond 200 "") m hm
  have hfp : findProcessor
      (Route NewApplication "/ping" fun _ => Respond 200 "").processors
      (dispatchPath (parseRequestCore
        { Method := m, URLPath := "/ping/", URLQuery := q, Header := hs, Body := b })) =
      some (routeProcessor "/ping" fun _ => Respond 200 "", []) := by
    rw [hpath]
    exact findProcessor_cons_of_match _ _ _ _ hmatch
  simp [ServeHTTP, ParseRequest, dispatchWith, hfp]
  rfl

/-- Witness for C7: `POST /ping/` against the `/ping` route yields status 200
with empty body. -/
theorem route_method_wildcard_matches_any_method_app :
    (∀ c ∈ ("POST" : String).data, c ≠ '\n') ∧
      (ServeHTTP (Route NewApplication "/ping" fun _ => Respond 200 "")
          { Method := "POST", URLPath := "/ping/", URLQuery := [], Header := [], Body := "" }).2 =
        some { status := 200, headers := [], body := "" } :=
  ⟨by decide, route_method_wildcard_matches_any_method "POST" [] [] "" (by decide)⟩

/-- C8 counterexample: a raw response carrying the multi-valued header
`X: ["a", "b"]` round-trips to an output containing only `("X", "a")` — the
pair `X`/`"b"` is not preserved, refuting "preserves every header key/value
pair exactly". -/
theorem roundtrip_drops_second_header_value :
    writeResponse (ParseResponse
        { StatusCode := 200, Header := [("X", ["a", "b"])], Body := "" }) =
      some { status := 200, headers := [("X", "a")], body := "" } ∧
      ("X", "b") ∉ ([("X", "a")] : List (String × String)) :=
  ⟨rfl, by decide⟩

/-- C8 (amended): translating a raw response through `ParseResponse` and back
through the emission path preserves the status code and, for each header
name, the name paired with its *first* value; in particular, when every
header is single-valued (and names are distinct, as in an `http.Header` map),
every header key/value pair is preserved exactly.  Values beyond the first of
a name are dropped by the `value[0]` emission. -/
theorem roundtrip_preserves_status_and_first_values (raw : HttpResponse)
    (hone : ∀ nv ∈ raw.Header, ∃ v, nv.2 = [v])
    (hnd : (raw.Header.map Prod.fst).Nodup) :
    writeResponse (ParseResponse raw) =
      some { status := raw.StatusCode
             headers := raw.Header.map fun nv => (nv.1, nv.2.headD "")
             body := raw.Body } := by
  unfold writeResponse ParseResponse
  rw [writeHeaders_singles raw.Header [] hone hnd (by intro n _ kv hkv; simp at hkv)]
  simp

/-- Witness for C8 (amended): a two-header single-valued raw response
round-trips with status 201 and both pairs intact. -/
theorem roundtrip_preserves_status_and_first_values_app :
    writeResponse (ParseResponse
        { StatusCode := 201, Header := [("A", ["1"]), ("B", ["2"])], Body := "x" }) =
      some { status := 201, headers := [("A", "1"), ("B", "2")], body := "x" } := by
  have h := roundtrip_preserves_status_and_first_values
    { StatusCode := 201, Header := [("A", ["1"]), ("B", ["2"])], Body := "x" }
    (by
      intro nv hnv
      simp only [List.mem_cons, List.not_mem_nil, or_false] at hnv
      rcases hnv with rfl | rfl
      · exact ⟨"1", rfl⟩
      · exact ⟨"2", rfl⟩)
    (by decide)
  exact h.trans rfl

end Webgo
